import Mathlib

/-!
Verification of `sun_grid_engine_map` (`sun_grid_engine_map/__init__.py`).

Python strings are modelled as `List Char` (sequences of Unicode code
points).  The external batch engine (qstat / qsub / qdel) is modelled by
traces: a list of per-cycle queue observations for the polling loop, and a
list of attempt outcomes for the retry loops.  The file system at result
collection time is modelled by a function from job index to the optional
content of the output blob.
-/

namespace SGE

/-! ### Decimal formatting, `"{:09d}".format(idx)` -/

/-- Little-endian decimal digits of `n`, with explicit fuel (the fuel `n`
itself always suffices because `n / 10 < n` for `n > 0`). `decDigitsAux f 0 = []`,
matching Python's `format` which pads with zeros anyway. -/
def decDigitsAux : Nat → Nat → List Nat
  | 0, _ => []
  | _ + 1, 0 => []
  | fuel + 1, n + 1 => ((n + 1) % 10) :: decDigitsAux fuel ((n + 1) / 10)

/-- Little-endian decimal digits of `n`. -/
def decDigits (n : Nat) : List Nat := decDigitsAux n n

def digitToChar (d : Nat) : Char := Char.ofNat (48 + d)

/-- Decimal notation of `n` (empty for `n = 0`; only used zero-padded). -/
def natToDecimal (n : Nat) : List Char := ((decDigits n).reverse).map digitToChar

/-- Zero padding to width 9, as in Python's `"{:09d}"` for nonnegative ints. -/
def pad9 (s : List Char) : List Char := List.replicate (9 - s.length) '0' ++ s

def format09 (n : Nat) : List Char := pad9 (natToDecimal n)

/-! ### `_make_JB_name` and `_idx_from_JB_name` -/

/-- Model of `_make_JB_name(session_id, idx)`: `"q{:s}#{:09d}".format(session_id, idx)`. -/
def make_JB_name (sessionId : List Char) (idx : Nat) : List Char :=
  'q' :: sessionId ++ '#' :: format09 idx

/-- Python `str.split(sep)` for a one-character separator.  Always returns a
nonempty list; splitting the empty string gives `[[]]`, i.e. `[""]`. -/
def splitOnChar (sep : Char) : List Char → List (List Char)
  | [] => [[]]
  | c :: cs =>
    match splitOnChar sep cs with
    | [] => [[]]
    | s :: rest => if c = sep then [] :: s :: rest else (c :: s) :: rest

/-- Python `int(s)` restricted to plain nonnegative digit strings; `none`
models the `ValueError` raised on anything else. -/
def parseNat (s : List Char) : Option Nat :=
  if s ≠ [] ∧ s.all Char.isDigit then
    some (s.foldl (fun a c => a * 10 + (c.toNat - 48)) 0)
  else none

/-- Model of `_idx_from_JB_name(JB_name)`: `int(JB_name.split("#")[1])`.  `none`
models the exceptions Python raises when the name has no `"#"` or the piece
after it is not an integer literal. -/
def idx_from_JB_name (JB_name : List Char) : Option Nat :=
  ((splitOnChar '#' JB_name).get? 1).bind parseNat

/-- Total shadow of `_idx_from_JB_name` used inside the polling loop.  In the
source the loop only ever parses names of its own session, which are built by
`_make_JB_name` and therefore always parse; the default `0` is unreachable
there (Python would raise on a malformed name). -/
def idx_from_JB_nameD (JB_name : List Char) : Nat := (idx_from_JB_name JB_name).getD 0

/-! ### Job records and queue-status classification -/

/-- One entry of the collections returned by `qstat.qstat`: the fields of the
job dictionaries the source reads (`JB_name`, `JB_job_number`, `state`). -/
structure JobRecord where
  JB_name : List Char
  JB_job_number : List Char
  state : List Char
deriving DecidableEq

/-- Python `needle in haystack` on strings: contiguous-substring test
(the empty string is a substring of everything). -/
def strIn (needle : List Char) : List Char → Bool
  | [] => needle.isEmpty
  | c :: rest => needle.isPrefixOf (c :: rest) || strIn needle rest

/-- Model of `_filter_jobs_by_JB_name(jobs, JB_names_set)`: keep, in order, the jobs
whose `JB_name` belongs to the session's name set. -/
def filter_jobs_by_JB_name (jobs : List JobRecord) (JB_names_set : List (List Char)) :
    List JobRecord :=
  match jobs with
  | [] => []
  | job :: rest =>
    if JB_names_set.contains job.JB_name then
      job :: filter_jobs_by_JB_name rest JB_names_set
    else
      filter_jobs_by_JB_name rest JB_names_set

/-- One `for job in jobs` loop of `_extract_error_from_running_pending`:
append each job to the error accumulator when the indicator occurs in its
`state` string, else to the kept accumulator. -/
def splitByErrorState (error_state_indicator : List Char) :
    List JobRecord → List JobRecord → List JobRecord → List JobRecord × List JobRecord
  | [], kept, err => (kept, err)
  | job :: rest, kept, err =>
    if strIn error_state_indicator job.state then
      splitByErrorState error_state_indicator rest kept (err ++ [job])
    else
      splitByErrorState error_state_indicator rest (kept ++ [job]) err

/-- Model of `_extract_error_from_running_pending(jobs_running, jobs_pending,
error_state_indicator)`: split into running, pending, and error; the error
list collects matching records of both input lists, running part first. -/
def extract_error_from_running_pending (jobs_running jobs_pending : List JobRecord)
    (error_state_indicator : List Char) :
    List JobRecord × List JobRecord × List JobRecord :=
  let re := splitByErrorState error_state_indicator jobs_running [] []
  let pe := splitByErrorState error_state_indicator jobs_pending [] re.2
  (re.1, pe.1, pe.2)

/-- One `qstat` answer (the two collections of job records), as seen by one
cycle of the polling loop. -/
structure PollObservation where
  running : List JobRecord
  pending : List JobRecord
deriving DecidableEq

/-- Model of `_jobs_running_pending_error(JB_names_set, error_state_indicator,
qstat_path)` applied to one observation: filter both collections to the
session's names, then reclassify error-state jobs. -/
def jobs_running_pending_error (JB_names_set : List (List Char))
    (error_state_indicator : List Char) (obs : PollObservation) :
    List JobRecord × List JobRecord × List JobRecord :=
  extract_error_from_running_pending
    (filter_jobs_by_JB_name obs.running JB_names_set)
    (filter_jobs_by_JB_name obs.pending JB_names_set)
    error_state_indicator

/-! ### The polling loop of `map` (qsub branch, lines 367-441) -/

/-- Lookup in a Python dict with `Nat` keys (insertion-ordered assoc list). -/
def dictGet (d : List (Nat × Nat)) (k : Nat) : Option Nat :=
  match d with
  | [] => none
  | (key, v) :: rest => if key = k then some v else dictGet rest k

/-- Update/insert in a Python dict: an existing key keeps its position, a new
key is appended. -/
def dictSet (d : List (Nat × Nat)) (k v : Nat) : List (Nat × Nat) :=
  match d with
  | [] => [(k, v)]
  | (key, w) :: rest => if key = k then (key, v) :: rest else (key, w) :: dictSet rest k v

/-- State carried across poll cycles: the `num_resubmissions_by_idx` dict,
plus the history of resubmission events (the job index passed to `submitter`
at line 422), which records what was resubmitted and in which order. -/
structure LoopState where
  num_resubmissions_by_idx : List (Nat × Nat)
  resubmitted_idxs : List Nat
deriving DecidableEq

/-- The updated counter value for an index whose previous dict entry was
`prev`: `num_resubmissions_by_idx[idx] = 0` on the first error observation
(key absent), `+= 1` otherwise (lines 398-401). -/
def nextCount : Option Nat → Nat
  | some c => c + 1
  | none => 0

/-- Lines 396-431, body of `for job in jobs_error`: initialize the counter to
0 on the first error observation of this index, increment it otherwise; qdel
the job (no state change here beyond the event); resubmit it exactly when the
updated counter is still below `max_num_resubmissions`. -/
def processErrorJob (max_num_resubmissions : Nat) (st : LoopState) (job : JobRecord) :
    LoopState :=
  let idx := idx_from_JB_nameD job.JB_name
  let newCount := nextCount (dictGet st.num_resubmissions_by_idx idx)
  let d := dictSet st.num_resubmissions_by_idx idx newCount
  if newCount < max_num_resubmissions then
    { num_resubmissions_by_idx := d, resubmitted_idxs := st.resubmitted_idxs ++ [idx] }
  else
    { num_resubmissions_by_idx := d, resubmitted_idxs := st.resubmitted_idxs }

def processErrorJobs (max_num_resubmissions : Nat) (st : LoopState)
    (jobs_error : List JobRecord) : LoopState :=
  jobs_error.foldl (processErrorJob max_num_resubmissions) st

/-- The `while still_running` loop, driven by the trace of successive `qstat`
observations (one per cycle).  Returns `some (k, st)` when the loop leaves at
cycle `k` (0-based) with final loop state `st`; `none` when the trace is
exhausted with the loop still running.  Faithful ordering of one cycle:
classify, process the error bucket (counters, qdel, resubmissions), then test
`num_running == 0 and num_pending == 0` on the counts obtained *before* this
cycle's resubmissions. -/
def pollLoop (max_num_resubmissions : Nat) (JB_names_set : List (List Char))
    (error_state_indicator : List Char) :
    List PollObservation → LoopState → Option (Nat × LoopState)
  | [], _ => none
  | obs :: future, st =>
    let rpe := jobs_running_pending_error JB_names_set error_state_indicator obs
    let stNext := processErrorJobs max_num_resubmissions st rpe.2.2
    if rpe.1.length = 0 ∧ rpe.2.1.length = 0 then
      some (0, stNext)
    else
      (pollLoop max_num_resubmissions JB_names_set error_state_indicator future stNext).map
        (fun r => (r.1 + 1, r.2))

/-- Number of times the loop resubmitted job index `idx`. -/
def numResubmissionsOf (st : LoopState) (idx : Nat) : Nat := st.resubmitted_idxs.count idx

/-- Termination test of one cycle, as a function of the observation alone:
running and pending counts after reclassifying error-state jobs out. -/
def pollCycleSettled (JB_names_set : List (List Char)) (error_state_indicator : List Char)
    (obs : PollObservation) : Bool :=
  ((jobs_running_pending_error JB_names_set error_state_indicator obs).1.length == 0)
    && ((jobs_running_pending_error JB_names_set error_state_indicator obs).2.1.length == 0)

/-- Index of the first settled cycle of a trace, if any. -/
def firstSettledCycle (JB_names_set : List (List Char)) (error_state_indicator : List Char) :
    List PollObservation → Option Nat
  | [] => none
  | obs :: rest =>
    if pollCycleSettled JB_names_set error_state_indicator obs then some 0
    else (firstSettledCycle JB_names_set error_state_indicator rest).map (· + 1)

/-- State evolution of one cycle (the error-bucket processing). -/
def stepCycle (max_num_resubmissions : Nat) (JB_names_set : List (List Char))
    (error_state_indicator : List Char) (st : LoopState) (obs : PollObservation) : LoopState :=
  processErrorJobs max_num_resubmissions st
    (jobs_running_pending_error JB_names_set error_state_indicator obs).2.2

def runCycles (max_num_resubmissions : Nat) (JB_names_set : List (List Char))
    (error_state_indicator : List Char) (st : LoopState)
    (trace : List PollObservation) : LoopState :=
  trace.foldl (stepCycle max_num_resubmissions JB_names_set error_state_indicator) st

/-- Number of records of one cycle's error bucket that parse to job index
`i`; the hypothesis `= 1` of the resubmission-bound theorem says the queue
reported job `i` in an error state (exactly once) in that cycle. -/
def errorBucketCountForIdx (JB_names_set : List (List Char))
    (error_state_indicator : List Char) (obs : PollObservation) (i : Nat) : Nat :=
  ((jobs_running_pending_error JB_names_set error_state_indicator obs).2.2).countP
    (fun j => idx_from_JB_nameD j.JB_name == i)

/-! ### Result collection (lines 446-455) -/

/-- The `for idx, job in enumerate(jobs)` collection loop, starting at index
`idx`.  `outputs i = none` models a missing `{:09d}.pkl.out` file
(`FileNotFoundError`, caught: a `None` result is recorded); `outputs i = some b`
with `decode b = none` models a present but undecodable blob, whose
`pickle.loads` exception is *not* caught and aborts `map` (`Except.error ()`). -/
def collectResults {α β γ : Type} (outputs : Nat → Option β) (decode : β → Option α) :
    Nat → List γ → Except Unit (List (Option α))
  | _, [] => Except.ok []
  | idx, _ :: rest =>
    match outputs idx with
    | none => (collectResults outputs decode (idx + 1) rest).map (fun res => none :: res)
    | some b =>
      match decode b with
      | none => Except.error ()
      | some v => (collectResults outputs decode (idx + 1) rest).map (fun res => some v :: res)

/-! ### Work-dir retention (lines 139-145 and 457-464) -/

/-- Model of `_has_non_zero_stderrs(work_dir, num_jobs)`: scan `idx.e` file sizes for
`idx in range(num_jobs)`; the flag is set once any size is nonzero. -/
def has_non_zero_stderrs (stderrSize : Nat → Nat) (num_jobs : Nat) : Bool :=
  (List.range num_jobs).foldl
    (fun has_errors idx => if stderrSize idx ≠ 0 then true else has_errors) false

/-- Lines 457-464: the work dir is kept (and reported) iff some stderr file
is non-empty or `keep_work_dir` was set; otherwise `shutil.rmtree` removes it. -/
def keepWorkDirDecision (stderrSize : Nat → Nat) (num_jobs : Nat) (keep_work_dir : Bool) :
    Bool :=
  has_non_zero_stderrs stderrSize num_jobs || keep_work_dir

/-! ### The retry loops `_qdel` (lines 159-168) and `_qstat` (lines 171-187)

One attempt of the wrapped operation either returns, raises an ordinary
`Exception`, or raises `KeyboardInterrupt`; a trace lists the successive
attempt outcomes.  The `time.sleep(1)` backoff has no observable effect
beyond ordering and is not modelled. -/

inductive QdelAttempt where
  | ok : QdelAttempt
  | fail : QdelAttempt
  | interrupt : QdelAttempt
deriving DecidableEq

inductive QstatAttempt where
  | ok : List JobRecord → List JobRecord → QstatAttempt
  | fail : QstatAttempt
  | interrupt : QstatAttempt
deriving DecidableEq

/-- Observable outcome of a retry loop on a finite attempt trace:
it returned a value, it let `KeyboardInterrupt` escape, or it was still
retrying when the trace ended. -/
inductive RetryOutcome (α : Type) where
  | result : α → RetryOutcome α
  | interrupted : RetryOutcome α
  | stillRetrying : RetryOutcome α
deriving DecidableEq

/-- Model of `_qdel`: `while True: try __qdel; break / except KeyboardInterrupt: raise
/ except Exception: sleep(1)` — ordinary failures are absorbed and retried,
an interrupt escapes at once. -/
def qdelRetryLoop : List QdelAttempt → RetryOutcome Unit
  | [] => RetryOutcome.stillRetrying
  | QdelAttempt.ok :: _ => RetryOutcome.result ()
  | QdelAttempt.interrupt :: _ => RetryOutcome.interrupted
  | QdelAttempt.fail :: rest => qdelRetryLoop rest

/-- Model of `_qstat`: same retry skeleton around `qstat.qstat`, returning the running
and pending collections of the first successful attempt. -/
def qstatRetryLoop : List QstatAttempt → RetryOutcome (List JobRecord × List JobRecord)
  | [] => RetryOutcome.stillRetrying
  | QstatAttempt.ok r p :: _ => RetryOutcome.result (r, p)
  | QstatAttempt.interrupt :: _ => RetryOutcome.interrupted
  | QstatAttempt.fail :: rest => qstatRetryLoop rest

/-! ### Environment escaping in `_make_worker_node_script` (lines 12-18)

The source embeds each environment key and value into the generated program
as `os.environ["{key}"] = "{value}"`, where key and value are passed through
`str.encode("unicode_escape").decode()`.  `unicodeEscapeChar` models
CPython's `unicode_escape` codec per code point; `parsePyLiteral` models the
evaluation of the embedded fragment: CPython's lexing of one complete
double-quoted, single-line string literal.  A fragment that is not exactly
one such literal (for instance because an unescaped `"` in the value closed
the literal early) yields `none`, modelling the `SyntaxError` of the
generated program. -/

def hexDigitChar (d : Nat) : Char :=
  if d < 10 then Char.ofNat (48 + d) else Char.ofNat (97 + (d - 10))

def hex2 (n : Nat) : List Char := [hexDigitChar (n / 16 % 16), hexDigitChar (n % 16)]

def hex4 (n : Nat) : List Char :=
  [hexDigitChar (n / 4096 % 16), hexDigitChar (n / 256 % 16),
   hexDigitChar (n / 16 % 16), hexDigitChar (n % 16)]

def hex8 (n : Nat) : List Char := hex4 (n / 65536) ++ hex4 n

/-- CPython `unicode_escape` encoding of one code point: backslash, tab,
newline and carriage return get two-character escapes; other printable ASCII
(which includes both quote characters!) passes through unchanged; everything
else becomes `\xHH`, `\uHHHH` or `\UHHHHHHHH`. -/
def unicodeEscapeChar (c : Char) : List Char :=
  if c = '\\' then ['\\', '\\']
  else if c = '\t' then ['\\', 't']
  else if c = '\n' then ['\\', 'n']
  else if c = '\r' then ['\\', 'r']
  else if 32 ≤ c.toNat ∧ c.toNat ≤ 126 then [c]
  else if c.toNat < 256 then '\\' :: 'x' :: hex2 c.toNat
  else if c.toNat < 65536 then '\\' :: 'u' :: hex4 c.toNat
  else '\\' :: 'U' :: hex8 c.toNat

/-- Model of `s.encode("unicode_escape").decode()` (the produced bytes are ASCII, so
the final `.decode()` is the identity). -/
def unicodeEscape (s : List Char) : List Char := (s.map unicodeEscapeChar).flatten

/-- The escaped string embedded between double quotes, exactly as the format
string `'os.environ["{key:s}"] = "{value:s}"\n'` places it. -/
def embedInLiteral (s : List Char) : List Char := '"' :: unicodeEscape s ++ ['"']

def hexVal (c : Char) : Option Nat :=
  if 48 ≤ c.toNat ∧ c.toNat ≤ 57 then some (c.toNat - 48)
  else if 97 ≤ c.toNat ∧ c.toNat ≤ 102 then some (c.toNat - 87)
  else if 65 ≤ c.toNat ∧ c.toNat ≤ 70 then some (c.toNat - 55)
  else none

def isOctalDigit (c : Char) : Bool := 48 ≤ c.toNat && c.toNat ≤ 55

def octVal (c : Char) : Nat := c.toNat - 48

/-- Body of a double-quoted Python string literal, after the opening quote:
decode escape sequences until the closing quote, which must end the fragment
(a fragment continuing past the closing quote is not one literal).  `fuel`
makes the recursion structural; it is always called with enough fuel. -/
def parseLiteralBodyAux : Nat → List Char → Option (List Char)
  | 0, _ => none
  | _ + 1, [] => none
  | _ + 1, '"' :: rest => if rest.isEmpty then some [] else none
  | _ + 1, '\n' :: _ => none
  | _ + 1, ['\\'] => none
  | fuel + 1, '\\' :: e :: rest =>
    if e = '\n' then
      -- backslash-newline: line continuation, produces no character
      parseLiteralBodyAux fuel rest
    else if e = '\\' then (parseLiteralBodyAux fuel rest).map (fun t => '\\' :: t)
    else if e = '\'' then (parseLiteralBodyAux fuel rest).map (fun t => '\'' :: t)
    else if e = '"' then (parseLiteralBodyAux fuel rest).map (fun t => '"' :: t)
    else if e = 'a' then (parseLiteralBodyAux fuel rest).map (fun t => Char.ofNat 7 :: t)
    else if e = 'b' then (parseLiteralBodyAux fuel rest).map (fun t => Char.ofNat 8 :: t)
    else if e = 'f' then (parseLiteralBodyAux fuel rest).map (fun t => Char.ofNat 12 :: t)
    else if e = 'n' then (parseLiteralBodyAux fuel rest).map (fun t => '\n' :: t)
    else if e = 'r' then (parseLiteralBodyAux fuel rest).map (fun t => Char.ofNat 13 :: t)
    else if e = 't' then (parseLiteralBodyAux fuel rest).map (fun t => '\t' :: t)
    else if e = 'v' then (parseLiteralBodyAux fuel rest).map (fun t => Char.ofNat 11 :: t)
    else if e = 'x' then
      match rest with
      | h1 :: h2 :: rest2 =>
        match hexVal h1, hexVal h2 with
        | some a, some b =>
          (parseLiteralBodyAux fuel rest2).map (fun t => Char.ofNat (16 * a + b) :: t)
        | _, _ => none
      | _ => none
    else if e = 'u' then
      match rest with
      | h1 :: h2 :: h3 :: h4 :: rest2 =>
        match hexVal h1, hexVal h2, hexVal h3, hexVal h4 with
        | some a, some b, some c, some d =>
          (parseLiteralBodyAux fuel rest2).map
            (fun t => Char.ofNat (4096 * a + 256 * b + 16 * c + d) :: t)
        | _, _, _, _ => none
      | _ => none
    else if e = 'U' then
      match rest with
      | h1 :: h2 :: h3 :: h4 :: h5 :: h6 :: h7 :: h8 :: rest2 =>
        match hexVal h1, hexVal h2, hexVal h3, hexVal h4,
              hexVal h5, hexVal h6, hexVal h7, hexVal h8 with
        | some a, some b, some c, some d, some e1, some f, some g, some h =>
          (parseLiteralBodyAux fuel rest2).map
            (fun t =>
              Char.ofNat (((((((a * 16 + b) * 16 + c) * 16 + d) * 16 + e1) * 16 + f) * 16
                + g) * 16 + h) :: t)
        | _, _, _, _, _, _, _, _ => none
      | _ => none
    else if isOctalDigit e then
      match rest with
      | d2 :: d3 :: rest2 =>
        if isOctalDigit d2 && isOctalDigit d3 then
          (parseLiteralBodyAux fuel rest2).map
            (fun t => Char.ofNat (64 * octVal e + 8 * octVal d2 + octVal d3) :: t)
        else if isOctalDigit d2 then
          (parseLiteralBodyAux fuel (d3 :: rest2)).map
            (fun t => Char.ofNat (8 * octVal e + octVal d2) :: t)
        else
          (parseLiteralBodyAux fuel (d2 :: d3 :: rest2)).map
            (fun t => Char.ofNat (octVal e) :: t)
      | [d2] =>
        if isOctalDigit d2 then
          (parseLiteralBodyAux fuel []).map
            (fun t => Char.ofNat (8 * octVal e + octVal d2) :: t)
        else
          (parseLiteralBodyAux fuel [d2]).map (fun t => Char.ofNat (octVal e) :: t)
      | [] => (parseLiteralBodyAux fuel []).map (fun t => Char.ofNat (octVal e) :: t)
    else
      -- unrecognized escape: Python keeps the backslash and the character
      (parseLiteralBodyAux fuel rest).map (fun t => '\\' :: e :: t)
  | fuel + 1, c :: rest => (parseLiteralBodyAux fuel rest).map (fun t => c :: t)

/-- Evaluation of a fragment that should be exactly one double-quoted
single-line string literal; `none` models a `SyntaxError`. -/
def parsePyLiteral (s : List Char) : Option (List Char) :=
  match s with
  | '"' :: body => parseLiteralBodyAux (body.length + 1) body
  | _ => none

/-! ## Theorems -/

/-! ### Decimal round trip, towards `_idx_from_JB_name ∘ _make_JB_name` -/

theorem decDigitsAux_lt10 : ∀ (fuel n d : Nat), d ∈ decDigitsAux fuel n → d < 10 := by
  intro fuel
  induction fuel with
  | zero => intro n d h; simp [decDigitsAux] at h
  | succ fuel ih =>
    intro n d h
    match n with
    | 0 => simp [decDigitsAux] at h
    | n + 1 =>
      simp only [decDigitsAux, List.mem_cons] at h
      rcases h with h | h
      · subst h; exact Nat.mod_lt _ (by norm_num)
      · exact ih _ _ h

theorem decDigitsAux_value :
    ∀ (fuel n : Nat), n ≤ fuel →
      (decDigitsAux fuel n).foldr (fun d a => d + 10 * a) 0 = n := by
  intro fuel
  induction fuel with
  | zero => intro n h; interval_cases n; simp [decDigitsAux]
  | succ fuel ih =>
    intro n h
    match n with
    | 0 => simp [decDigitsAux]
    | n + 1 =>
      have hdiv : (n + 1) / 10 ≤ fuel := by
        have : (n + 1) / 10 ≤ n := Nat.lt_succ_iff.mp (Nat.div_lt_self (Nat.succ_pos n) (by norm_num))
        omega
      simp only [decDigitsAux, List.foldr_cons, ih _ hdiv]
      omega

theorem foldl_reverse_decimal :
    ∀ (l : List Nat) (a : Nat),
      l.reverse.foldl (fun a d => a * 10 + d) a
        = a * 10 ^ l.length + l.foldr (fun d acc => d + 10 * acc) 0 := by
  intro l
  induction l with
  | nil => intro a; simp
  | cons d t ih =>
    intro a
    simp only [List.reverse_cons, List.foldl_append, ih a, List.foldl_cons, List.foldl_nil,
      List.length_cons, List.foldr_cons]
    ring

theorem digitToChar_toNat (d : Nat) (h : d < 10) : (digitToChar d).toNat = 48 + d := by
  interval_cases d <;> decide

theorem digitToChar_isDigit (d : Nat) (h : d < 10) : (digitToChar d).isDigit = true := by
  interval_cases d <;> decide

theorem foldl_map_digitToChar :
    ∀ (l : List Nat) (a : Nat), (∀ d ∈ l, d < 10) →
      (l.map digitToChar).foldl (fun a c => a * 10 + (c.toNat - 48)) a
        = l.foldl (fun a d => a * 10 + d) a := by
  intro l
  induction l with
  | nil => intro a _; rfl
  | cons d t ih =>
    intro a h
    have hd : d < 10 := h d (by simp)
    simp only [List.map_cons, List.foldl_cons, digitToChar_toNat d hd]
    rw [show 48 + d - 48 = d by omega]
    exact ih _ (fun x hx => h x (by simp [hx]))

theorem foldl_zeros (k : Nat) :
    (List.replicate k '0').foldl (fun a c => a * 10 + (c.toNat - 48)) 0 = 0 := by
  induction k with
  | zero => rfl
  | succ k ih => simpa [List.replicate_succ] using ih

theorem format09_all_digits (n : Nat) : ∀ c ∈ format09 n, c.isDigit = true := by
  intro c hc
  simp only [format09, pad9, natToDecimal, List.mem_append, List.mem_replicate,
    List.mem_map, List.mem_reverse] at hc
  rcases hc with ⟨_, rfl⟩ | ⟨d, hd, rfl⟩
  · decide
  · exact digitToChar_isDigit d (decDigitsAux_lt10 _ _ _ hd)

theorem format09_ne_nil (n : Nat) : format09 n ≠ [] := by
  simp only [format09, pad9]
  intro h
  rcases List.append_eq_nil.mp h with ⟨h1, h2⟩
  rw [h2] at h1
  simp [List.replicate_eq_nil_iff] at h1

theorem parseNat_format09 (n : Nat) : parseNat (format09 n) = some n := by
  have hdigits := format09_all_digits n
  simp only [parseNat, ne_eq, format09_ne_nil n, not_false_eq_true, true_and,
    List.all_eq_true]
  rw [if_pos hdigits]
  congr 1
  show (pad9 (natToDecimal n)).foldl (fun a c => a * 10 + (c.toNat - 48)) 0 = n
  rw [pad9, List.foldl_append, foldl_zeros]
  show ((decDigits n).reverse.map digitToChar).foldl (fun a c => a * 10 + (c.toNat - 48)) 0 = n
  rw [foldl_map_digitToChar ((decDigits n).reverse) 0
    (fun d hd => decDigitsAux_lt10 _ _ _ (List.mem_reverse.mp hd))]
  rw [foldl_reverse_decimal]
  simpa using decDigitsAux_value n n (Nat.le_refl n)

theorem splitOnChar_ne_nil (sep : Char) (s : List Char) : splitOnChar sep s ≠ [] := by
  cases s with
  | nil => simp [splitOnChar]
  | cons c cs =>
    simp only [splitOnChar]
    cases h : splitOnChar sep cs with
    | nil => simp
    | cons a l =>
      by_cases hc : c = sep <;> simp [hc]

theorem splitOnChar_not_mem (sep : Char) (s : List Char) (h : sep ∉ s) :
    splitOnChar sep s = [s] := by
  induction s with
  | nil => rfl
  | cons c cs ih =>
    have hc : c ≠ sep := fun hcs => h (by simp [hcs])
    have hcs : sep ∉ cs := fun hm => h (by simp [hm])
    simp only [splitOnChar, ih hcs]
    simp [hc]

theorem splitOnChar_append (sep : Char) (l r : List Char) (h : sep ∉ l) :
    splitOnChar sep (l ++ sep :: r) = l :: splitOnChar sep r := by
  induction l with
  | nil =>
    simp only [List.nil_append, splitOnChar]
    cases hr : splitOnChar sep r with
    | nil => exact absurd hr (splitOnChar_ne_nil sep r)
    | cons a t => simp
  | cons c cs ih =>
    have hc : c ≠ sep := fun hcs => h (by simp [hcs])
    have hcs : sep ∉ cs := fun hm => h (by simp [hm])
    have hstep : splitOnChar sep ((c :: cs) ++ sep :: r)
        = match splitOnChar sep (cs ++ sep :: r) with
          | [] => [[]]
          | s :: rest => if c = sep then [] :: s :: rest else (c :: s) :: rest := rfl
    rw [hstep, ih hcs]
    simp [hc]

/-- Claim C9: for every session id free of the character `#` and every index,
parsing the job name built by `_make_JB_name` with `_idx_from_JB_name` yields
back exactly that index. -/
theorem idx_from_JB_name_make_JB_name (sessionId : List Char) (idx : Nat)
    (h : '#' ∉ sessionId) :
    idx_from_JB_name (make_JB_name sessionId idx) = some idx := by
  have hq : '#' ∉ 'q' :: sessionId := by
    intro hm
    rcases List.mem_cons.mp hm with h1 | h1
    · exact absurd h1 (by decide)
    · exact h h1
  have hfmt : '#' ∉ format09 idx := by
    intro hm
    have := format09_all_digits idx _ hm
    simp at this
  show (((splitOnChar '#' (('q' :: sessionId) ++ '#' :: format09 idx)).get? 1).bind parseNat)
    = some idx
  rw [splitOnChar_append _ _ _ hq, splitOnChar_not_mem _ _ hfmt]
  simpa using parseNat_format09 idx

/-- Witness for C9 at a concrete session id and index. -/
theorem idx_from_JB_name_make_JB_name_witness :
    idx_from_JB_name (make_JB_name ['2', '0', '2', '0'] 13) = some 13 :=
  idx_from_JB_name_make_JB_name ['2', '0', '2', '0'] 13 (by decide)

/-! ### The error reclassification is a partition (C10) -/

theorem splitByErrorState_eq (ind : List Char) :
    ∀ (jobs kept err : List JobRecord),
      splitByErrorState ind jobs kept err
        = (kept ++ jobs.filter (fun j => !(strIn ind j.state)),
           err ++ jobs.filter (fun j => strIn ind j.state)) := by
  intro jobs
  induction jobs with
  | nil => intro kept err; simp [splitByErrorState]
  | cons job rest ih =>
    intro kept err
    by_cases hj : strIn ind job.state
    · simp [splitByErrorState, hj, ih, List.filter_cons]
    · simp [splitByErrorState, hj, ih, List.filter_cons]

theorem extract_error_fst (r p : List JobRecord) (ind : List Char) :
    (extract_error_from_running_pending r p ind).1
      = r.filter (fun j => !(strIn ind j.state)) := by
  simp [extract_error_from_running_pending, splitByErrorState_eq]

theorem extract_error_snd (r p : List JobRecord) (ind : List Char) :
    (extract_error_from_running_pending r p ind).2.1
      = p.filter (fun j => !(strIn ind j.state)) := by
  simp [extract_error_from_running_pending, splitByErrorState_eq]

theorem extract_error_err (r p : List JobRecord) (ind : List Char) :
    (extract_error_from_running_pending r p ind).2.2
      = r.filter (fun j => strIn ind j.state) ++ p.filter (fun j => strIn ind j.state) := by
  simp [extract_error_from_running_pending, splitByErrorState_eq]

/-- Claim C10: `_extract_error_from_running_pending` is a partition of its
two input lists: the multiset of records is preserved (none dropped, none
duplicated, each lands in exactly one bucket), a record lands in the error
bucket iff the error-state indicator occurs as a substring of its `state`,
and the running/pending buckets keep exactly their non-matching records. -/
theorem extract_error_partition (r p : List JobRecord) (ind : List Char) :
    ((extract_error_from_running_pending r p ind).1
        ++ (extract_error_from_running_pending r p ind).2.1
        ++ (extract_error_from_running_pending r p ind).2.2).Perm (r ++ p)
    ∧ (∀ j, j ∈ (extract_error_from_running_pending r p ind).2.2
        ↔ ((j ∈ r ∨ j ∈ p) ∧ strIn ind j.state = true))
    ∧ (∀ j, j ∈ (extract_error_from_running_pending r p ind).1
        ↔ (j ∈ r ∧ ¬ strIn ind j.state = true))
    ∧ (∀ j, j ∈ (extract_error_from_running_pending r p ind).2.1
        ↔ (j ∈ p ∧ ¬ strIn ind j.state = true)) := by
  rw [extract_error_fst, extract_error_snd, extract_error_err]
  refine ⟨?_, ?_, ?_, ?_⟩
  · rw [List.perm_iff_count]
    intro a
    simp only [List.count_append]
    by_cases ha : strIn ind a.state
    · have h1 : a ∉ r.filter (fun j => !(strIn ind j.state)) := by
        intro hm; have := (List.mem_filter.mp hm).2; simp [ha] at this
      have h2 : a ∉ p.filter (fun j => !(strIn ind j.state)) := by
        intro hm; have := (List.mem_filter.mp hm).2; simp [ha] at this
      rw [List.count_eq_zero.mpr h1, List.count_eq_zero.mpr h2,
        List.count_filter (by simpa using ha), List.count_filter (by simpa using ha)]
      omega
    · have h1 : a ∉ r.filter (fun j => strIn ind j.state) := by
        intro hm; have := (List.mem_filter.mp hm).2; simp [ha] at this
      have h2 : a ∉ p.filter (fun j => strIn ind j.state) := by
        intro hm; have := (List.mem_filter.mp hm).2; simp [ha] at this
      rw [List.count_eq_zero.mpr h1, List.count_eq_zero.mpr h2,
        List.count_filter (by simpa using ha), List.count_filter (by simpa using ha)]
      omega
  · intro j
    simp only [List.mem_append, List.mem_filter]
    constructor
    · rintro (⟨hm, hs⟩ | ⟨hm, hs⟩) <;> exact ⟨by tauto, hs⟩
    · rintro ⟨hm | hm, hs⟩
      · exact Or.inl ⟨hm, hs⟩
      · exact Or.inr ⟨hm, hs⟩
  · intro j
    simp [List.mem_filter]
  · intro j
    simp [List.mem_filter]

/-! ### Work-dir retention (C8) -/

theorem foldl_stderr_flag (stderrSize : Nat → Nat) :
    ∀ (l : List Nat) (b : Bool),
      l.foldl (fun has_errors idx => if stderrSize idx ≠ 0 then true else has_errors) b
        = (b || l.any (fun idx => stderrSize idx != 0)) := by
  intro l
  induction l with
  | nil => intro b; simp
  | cons x t ih =>
    intro b
    rw [List.foldl_cons, ih]
    by_cases hx : stderrSize x = 0
    · simp [hx]
    · simp [hx]

theorem has_non_zero_stderrs_iff (stderrSize : Nat → Nat) (num_jobs : Nat) :
    has_non_zero_stderrs stderrSize num_jobs = true
      ↔ ∃ i, i < num_jobs ∧ stderrSize i ≠ 0 := by
  rw [has_non_zero_stderrs, foldl_stderr_flag]
  simp [List.any_eq_true, List.mem_range]

/-- Claim C8: after result collection, the work dir is preserved (and its
location reported) iff some job's stderr file has non-zero size or the caller
set `keep_work_dir`; otherwise it is removed entirely. -/
theorem work_dir_retention (stderrSize : Nat → Nat) (num_jobs : Nat) (keep_work_dir : Bool) :
    keepWorkDirDecision stderrSize num_jobs keep_work_dir = true
      ↔ ((∃ i, i < num_jobs ∧ stderrSize i ≠ 0) ∨ keep_work_dir = true) := by
  rw [keepWorkDirDecision, Bool.or_eq_true, has_non_zero_stderrs_iff]

/-! ### The retry policy of `_qdel` and `_qstat` (C7) -/

/-- Claim C7: in both retry loops, any number of ordinary failures is
absorbed (the loop just tries again after the backoff) and never surfaced: a
success after failures returns its value, an interrupt propagates
immediately, and the loops give up (`interrupted`) only when an actual
`KeyboardInterrupt` occurred in the trace. -/
theorem retry_policy :
    (∀ (k : Nat) (rest : List QdelAttempt),
      qdelRetryLoop (List.replicate k QdelAttempt.fail ++ rest) = qdelRetryLoop rest)
    ∧ (∀ rest : List QdelAttempt,
      qdelRetryLoop (QdelAttempt.interrupt :: rest) = RetryOutcome.interrupted)
    ∧ (∀ rest : List QdelAttempt,
      qdelRetryLoop (QdelAttempt.ok :: rest) = RetryOutcome.result ())
    ∧ (∀ t : List QdelAttempt,
      qdelRetryLoop t = RetryOutcome.interrupted → QdelAttempt.interrupt ∈ t)
    ∧ (∀ (k : Nat) (rest : List QstatAttempt),
      qstatRetryLoop (List.replicate k QstatAttempt.fail ++ rest) = qstatRetryLoop rest)
    ∧ (∀ rest : List QstatAttempt,
      qstatRetryLoop (QstatAttempt.interrupt :: rest) = RetryOutcome.interrupted)
    ∧ (∀ (r p : List JobRecord) (rest : List QstatAttempt),
      qstatRetryLoop (QstatAttempt.ok r p :: rest) = RetryOutcome.result (r, p))
    ∧ (∀ t : List QstatAttempt,
      qstatRetryLoop t = RetryOutcome.interrupted → QstatAttempt.interrupt ∈ t) := by
  refine ⟨?_, fun _ => rfl, fun _ => rfl, ?_, ?_, fun _ => rfl, fun _ _ _ => rfl, ?_⟩
  · intro k
    induction k with
    | zero => intro rest; rfl
    | succ k ih => intro rest; simpa [List.replicate_succ, qdelRetryLoop] using ih rest
  · intro t
    induction t with
    | nil => intro h; exact absurd h (by simp [qdelRetryLoop])
    | cons a t ih =>
      intro h
      cases a with
      | ok => exact absurd h (by simp [qdelRetryLoop])
      | interrupt => exact List.mem_cons_self _ _
      | fail => exact List.mem_cons_of_mem _ (ih h)
  · intro k
    induction k with
    | zero => intro rest; rfl
    | succ k ih => intro rest; simpa [List.replicate_succ, qstatRetryLoop] using ih rest
  · intro t
    induction t with
    | nil => intro h; exact absurd h (by simp [qstatRetryLoop])
    | cons a t ih =>
      intro h
      cases a with
      | ok r p => exact absurd h (by simp [qstatRetryLoop])
      | interrupt => exact List.mem_cons_self _ _
      | fail => exact List.mem_cons_of_mem _ (ih h)

/-- Witness for C7: the third conjunct applied to a concrete trace in which
one ordinary failure precedes the interrupt. -/
theorem retry_policy_witness :
    QdelAttempt.interrupt ∈ [QdelAttempt.fail, QdelAttempt.interrupt] :=
  retry_policy.2.2.2.1 [QdelAttempt.fail, QdelAttempt.interrupt] rfl

/-! ### Termination of the polling loop (C5) -/

/-- Claim C5: for every trace and every loop state, the polling loop leaves
exactly at the first cycle whose running and pending counts are both zero —
counts taken after reclassifying error-state jobs out of both buckets
(`pollCycleSettled` is computed from `jobs_running_pending_error` alone) and
before accounting for that cycle's resubmissions (the test does not depend on
the loop state, which is why `st` is universally quantified). -/
theorem pollLoop_leaves_at_first_settled_cycle (max_num_resubmissions : Nat)
    (JB_names_set : List (List Char)) (error_state_indicator : List Char) :
    ∀ (trace : List PollObservation) (st : LoopState),
      (pollLoop max_num_resubmissions JB_names_set error_state_indicator trace st).map
          Prod.fst
        = firstSettledCycle JB_names_set error_state_indicator trace := by
  intro trace
  induction trace with
  | nil => intro st; rfl
  | cons obs future ih =>
    intro st
    rw [pollLoop, firstSettledCycle]
    by_cases hs : (jobs_running_pending_error JB_names_set error_state_indicator obs).1.length
        = 0 ∧ (jobs_running_pending_error JB_names_set error_state_indicator obs).2.1.length = 0
    · have hb : pollCycleSettled JB_names_set error_state_indicator obs = true := by
        simp [pollCycleSettled, hs.1, hs.2]
      simp [hs, hb]
    · have hb : pollCycleSettled JB_names_set error_state_indicator obs = false := by
        simp only [pollCycleSettled, Bool.and_eq_false_iff]
        rcases Decidable.not_and_iff_or_not.mp hs with h | h
        · exact Or.inl (by simpa using h)
        · exact Or.inr (by simpa using h)
      rw [if_neg hs, hb, if_neg (by simp)]
      rw [Option.map_map, ← ih]
      rw [Option.map_map]
      rfl

/-! ### The resubmission counter across cycles (C1) -/

theorem dictGet_dictSet_self (d : List (Nat × Nat)) (k v : Nat) :
    dictGet (dictSet d k v) k = some v := by
  induction d with
  | nil => simp [dictSet, dictGet]
  | cons kv rest ih =>
    obtain ⟨key, w⟩ := kv
    by_cases hk : key = k
    · simp [dictSet, dictGet, hk]
    · simp [dictSet, dictGet, hk, ih]

theorem dictGet_dictSet_ne (d : List (Nat × Nat)) (k v i : Nat) (h : k ≠ i) :
    dictGet (dictSet d k v) i = dictGet d i := by
  induction d with
  | nil => simp [dictSet, dictGet, h]
  | cons kv rest ih =>
    obtain ⟨key, w⟩ := kv
    by_cases hk : key = k
    · subst hk
      simp [dictSet, dictGet, h]
    · by_cases hi : key = i
      · subst hi
        simp [dictSet, dictGet, hk, ih]
      · simp [dictSet, dictGet, hk, hi, ih]

theorem processErrorJob_dict (max_num_resubmissions : Nat) (st : LoopState)
    (job : JobRecord) :
    (processErrorJob max_num_resubmissions st job).num_resubmissions_by_idx
      = dictSet st.num_resubmissions_by_idx (idx_from_JB_nameD job.JB_name)
          (nextCount (dictGet st.num_resubmissions_by_idx (idx_from_JB_nameD job.JB_name))) := by
  rw [processErrorJob]
  split <;> rfl

theorem processErrorJob_resubmitted (max_num_resubmissions : Nat) (st : LoopState)
    (job : JobRecord) :
    (processErrorJob max_num_resubmissions st job).resubmitted_idxs
      = st.resubmitted_idxs
        ++ (if nextCount (dictGet st.num_resubmissions_by_idx (idx_from_JB_nameD job.JB_name))
              < max_num_resubmissions
            then [idx_from_JB_nameD job.JB_name] else []) := by
  rw [processErrorJob]
  by_cases hc : nextCount (dictGet st.num_resubmissions_by_idx (idx_from_JB_nameD job.JB_name))
      < max_num_resubmissions
  · rw [if_pos hc, if_pos hc]
  · rw [if_neg hc, if_neg hc, List.append_nil]

theorem processErrorJob_other (max_num_resubmissions : Nat) (st : LoopState)
    (job : JobRecord) (i : Nat) (h : idx_from_JB_nameD job.JB_name ≠ i) :
    dictGet (processErrorJob max_num_resubmissions st job).num_resubmissions_by_idx i
        = dictGet st.num_resubmissions_by_idx i
    ∧ numResubmissionsOf (processErrorJob max_num_resubmissions st job) i
        = numResubmissionsOf st i := by
  constructor
  · rw [processErrorJob_dict]
    exact dictGet_dictSet_ne _ _ _ _ h
  · rw [numResubmissionsOf, numResubmissionsOf, processErrorJob_resubmitted,
      List.count_append]
    by_cases hc : nextCount (dictGet st.num_resubmissions_by_idx (idx_from_JB_nameD job.JB_name))
        < max_num_resubmissions
    · rw [if_pos hc, List.count_singleton]
      simp [h]
    · rw [if_neg hc]
      simp

theorem processErrorJob_self (max_num_resubmissions : Nat) (st : LoopState)
    (job : JobRecord) (i : Nat) (h : idx_from_JB_nameD job.JB_name = i) :
    dictGet (processErrorJob max_num_resubmissions st job).num_resubmissions_by_idx i
        = some (nextCount (dictGet st.num_resubmissions_by_idx i))
    ∧ numResubmissionsOf (processErrorJob max_num_resubmissions st job) i
        = numResubmissionsOf st i
          + (if nextCount (dictGet st.num_resubmissions_by_idx i) < max_num_resubmissions
             then 1 else 0) := by
  subst h
  constructor
  · rw [processErrorJob_dict]
    exact dictGet_dictSet_self _ _ _
  · rw [numResubmissionsOf, numResubmissionsOf, processErrorJob_resubmitted,
      List.count_append]
    by_cases hc : nextCount (dictGet st.num_resubmissions_by_idx (idx_from_JB_nameD job.JB_name))
        < max_num_resubmissions
    · rw [if_pos hc, if_pos hc, List.count_singleton]
      simp
    · rw [if_neg hc, if_neg hc]
      simp

theorem processErrorJobs_zero (max_num_resubmissions : Nat) (i : Nat) :
    ∀ (e : List JobRecord) (st : LoopState),
      e.countP (fun j => idx_from_JB_nameD j.JB_name == i) = 0 →
      dictGet (processErrorJobs max_num_resubmissions st e).num_resubmissions_by_idx i
          = dictGet st.num_resubmissions_by_idx i
      ∧ numResubmissionsOf (processErrorJobs max_num_resubmissions st e) i
          = numResubmissionsOf st i := by
  intro e
  induction e with
  | nil => intro st _; exact ⟨rfl, rfl⟩
  | cons job rest ih =>
    intro st h
    rw [List.countP_cons] at h
    have hj : idx_from_JB_nameD job.JB_name ≠ i := by
      intro hji
      simp [hji] at h
    have hrest : rest.countP (fun j => idx_from_JB_nameD j.JB_name == i) = 0 := by
      simp [hj] at h
      exact List.countP_eq_zero.mpr (by simpa using h)
    have hstep := processErrorJob_other max_num_resubmissions st job i hj
    have hrec := ih (processErrorJob max_num_resubmissions st job) hrest
    have hfold : processErrorJobs max_num_resubmissions st (job :: rest)
        = processErrorJobs max_num_resubmissions
            (processErrorJob max_num_resubmissions st job) rest := rfl
    rw [hfold]
    exact ⟨hrec.1.trans hstep.1, hrec.2.trans hstep.2⟩

theorem processErrorJobs_one (max_num_resubmissions : Nat) (i : Nat) :
    ∀ (e : List JobRecord) (st : LoopState),
      e.countP (fun j => idx_from_JB_nameD j.JB_name == i) = 1 →
      dictGet (processErrorJobs max_num_resubmissions st e).num_resubmissions_by_idx i
          = some (nextCount (dictGet st.num_resubmissions_by_idx i))
      ∧ numResubmissionsOf (processErrorJobs max_num_resubmissions st e) i
          = numResubmissionsOf st i
            + (if nextCount (dictGet st.num_resubmissions_by_idx i) < max_num_resubmissions
               then 1 else 0) := by
  intro e
  induction e with
  | nil => intro st h; simp [List.countP_nil] at h
  | cons job rest ih =>
    intro st h
    rw [List.countP_cons] at h
    have hfold : processErrorJobs max_num_resubmissions st (job :: rest)
        = processErrorJobs max_num_resubmissions
            (processErrorJob max_num_resubmissions st job) rest := rfl
    by_cases hj : idx_from_JB_nameD job.JB_name = i
    · have hrest : rest.countP (fun j => idx_from_JB_nameD j.JB_name == i) = 0 := by
        simp [hj] at h
        exact List.countP_eq_zero.mpr (by simpa using h)
      have hstep := processErrorJob_self max_num_resubmissions st job i hj
      have hpres := processErrorJobs_zero max_num_resubmissions i rest
        (processErrorJob max_num_resubmissions st job) hrest
      rw [hfold]
      exact ⟨hpres.1.trans hstep.1, hpres.2.trans hstep.2⟩
    · have hrest : rest.countP (fun j => idx_from_JB_nameD j.JB_name == i) = 1 := by
        simp [hj] at h
        exact h
      have hstep := processErrorJob_other max_num_resubmissions st job i hj
      have hrec := ih (processErrorJob max_num_resubmissions st job) hrest
      rw [hfold]
      constructor
      · rw [hrec.1, hstep.1]
      · rw [hrec.2, hstep.2, hstep.1]

theorem stepCycle_one (max_num_resubmissions : Nat) (JB_names_set : List (List Char))
    (error_state_indicator : List Char) (obs : PollObservation) (st : LoopState) (i : Nat)
    (h : errorBucketCountForIdx JB_names_set error_state_indicator obs i = 1) :
    dictGet (stepCycle max_num_resubmissions JB_names_set error_state_indicator st
        obs).num_resubmissions_by_idx i
      = some (nextCount (dictGet st.num_resubmissions_by_idx i))
    ∧ numResubmissionsOf
        (stepCycle max_num_resubmissions JB_names_set error_state_indicator st obs) i
      = numResubmissionsOf st i
        + (if nextCount (dictGet st.num_resubmissions_by_idx i) < max_num_resubmissions
           then 1 else 0) :=
  processErrorJobs_one max_num_resubmissions i
    (jobs_running_pending_error JB_names_set error_state_indicator obs).2.2 st h

theorem runCycles_counter_from (max_num_resubmissions : Nat)
    (JB_names_set : List (List Char)) (error_state_indicator : List Char) (i : Nat) :
    ∀ (tr : List PollObservation) (st : LoopState) (c : Nat),
      (∀ obs ∈ tr, errorBucketCountForIdx JB_names_set error_state_indicator obs i = 1) →
      dictGet st.num_resubmissions_by_idx i = some c →
      dictGet (runCycles max_num_resubmissions JB_names_set error_state_indicator st
          tr).num_resubmissions_by_idx i
        = some (c + tr.length)
      ∧ numResubmissionsOf
          (runCycles max_num_resubmissions JB_names_set error_state_indicator st tr) i
        = numResubmissionsOf st i + min tr.length (max_num_resubmissions - (c + 1)) := by
  intro tr
  induction tr with
  | nil =>
    intro st c _ hc
    exact ⟨by simpa using hc, by simp [runCycles]⟩
  | cons obs rest ih =>
    intro st c herr hc
    have hobs : errorBucketCountForIdx JB_names_set error_state_indicator obs i = 1 :=
      herr obs (by simp)
    have hrest : ∀ o ∈ rest, errorBucketCountForIdx JB_names_set error_state_indicator o i
        = 1 := fun o ho => herr o (by simp [ho])
    have hstep := stepCycle_one max_num_resubmissions JB_names_set error_state_indicator
      obs st i hobs
    rw [hc] at hstep
    have hfold : runCycles max_num_resubmissions JB_names_set error_state_indicator st
        (obs :: rest)
      = runCycles max_num_resubmissions JB_names_set error_state_indicator
          (stepCycle max_num_resubmissions JB_names_set error_state_indicator st obs)
          rest := rfl
    have hrec := ih
      (stepCycle max_num_resubmissions JB_names_set error_state_indicator st obs)
      (c + 1) hrest (by simpa [nextCount] using hstep.1)
    rw [hfold]
    constructor
    · rw [hrec.1]
      congr 1
      simp [List.length_cons]
      omega
    · rw [hrec.2, hstep.2]
      simp only [nextCount, List.length_cons]
      by_cases hlt : c + 1 < max_num_resubmissions
      · rw [if_pos hlt]
        omega
      · rw [if_neg hlt]
        omega

theorem runCycles_counter_init (max_num_resubmissions : Nat)
    (JB_names_set : List (List Char)) (error_state_indicator : List Char) (i : Nat)
    (tr : List PollObservation)
    (hne : tr ≠ [])
    (herr : ∀ obs ∈ tr, errorBucketCountForIdx JB_names_set error_state_indicator obs i = 1) :
    dictGet (runCycles max_num_resubmissions JB_names_set error_state_indicator ⟨[], []⟩
        tr).num_resubmissions_by_idx i
      = some (tr.length - 1)
    ∧ numResubmissionsOf
        (runCycles max_num_resubmissions JB_names_set error_state_indicator ⟨[], []⟩ tr) i
      = min tr.length max_num_resubmissions := by
  match tr with
  | [] => exact absurd rfl hne
  | obs :: rest =>
    have hobs : errorBucketCountForIdx JB_names_set error_state_indicator obs i = 1 :=
      herr obs (by simp)
    have hrest : ∀ o ∈ rest, errorBucketCountForIdx JB_names_set error_state_indicator o i
        = 1 := fun o ho => herr o (by simp [ho])
    have hstep := stepCycle_one max_num_resubmissions JB_names_set error_state_indicator
      obs ⟨[], []⟩ i hobs
    have hget0 : dictGet (⟨[], []⟩ : LoopState).num_resubmissions_by_idx i = none := rfl
    rw [hget0] at hstep
    have hfold : runCycles max_num_resubmissions JB_names_set error_state_indicator
        ⟨[], []⟩ (obs :: rest)
      = runCycles max_num_resubmissions JB_names_set error_state_indicator
          (stepCycle max_num_resubmissions JB_names_set error_state_indicator ⟨[], []⟩ obs)
          rest := rfl
    have hrec := runCycles_counter_from max_num_resubmissions JB_names_set
      error_state_indicator i rest
      (stepCycle max_num_resubmissions JB_names_set error_state_indicator ⟨[], []⟩ obs)
      0 hrest (by simpa [nextCount] using hstep.1)
    rw [hfold]
    constructor
    · rw [hrec.1]
      simp
    · rw [hrec.2, hstep.2]
      have hcount0 : numResubmissionsOf (⟨[], []⟩ : LoopState) i = 0 := rfl
      rw [hcount0]
      simp only [nextCount, List.length_cons]
      by_cases hpos : 0 < max_num_resubmissions
      · rw [if_pos hpos]
        omega
      · rw [if_neg hpos]
        omega

theorem pollLoop_some_inv (max_num_resubmissions : Nat) (JB_names_set : List (List Char))
    (error_state_indicator : List Char) :
    ∀ (trace : List PollObservation) (st : LoopState) (k : Nat) (stF : LoopState),
      pollLoop max_num_resubmissions JB_names_set error_state_indicator trace st
        = some (k, stF) →
      k < trace.length
      ∧ stF = runCycles max_num_resubmissions JB_names_set error_state_indicator st
          (trace.take (k + 1)) := by
  intro trace
  induction trace with
  | nil => intro st k stF h; exact absurd h (by simp [pollLoop])
  | cons obs future ih =>
    intro st k stF h
    rw [pollLoop] at h
    by_cases hs : (jobs_running_pending_error JB_names_set error_state_indicator obs).1.length
        = 0 ∧ (jobs_running_pending_error JB_names_set error_state_indicator obs).2.1.length
        = 0
    · rw [if_pos hs] at h
      have h2 := Option.some.inj h
      have hk0 : k = 0 := (congrArg Prod.fst h2).symm
      have hstF : stF = processErrorJobs max_num_resubmissions st
          (jobs_running_pending_error JB_names_set error_state_indicator obs).2.2 :=
        (congrArg Prod.snd h2).symm
      subst hk0
      refine ⟨by simp, ?_⟩
      rw [hstF]
      rfl
    · rw [if_neg hs] at h
      rcases Option.map_eq_some'.mp h with ⟨⟨k1, st1⟩, hrec, heq⟩
      have hk : k = k1 + 1 := by
        have := congrArg Prod.fst heq
        simpa using this.symm
      have hst : stF = st1 := by
        have := congrArg Prod.snd heq
        simpa using this.symm
      subst hk
      subst hst
      have := ih _ _ _ hrec
      refine ⟨by simp; omega, ?_⟩
      rw [List.take_succ_cons]
      exact this.2

/-! ### Result collection (C2, C4, C6) -/

theorem collectResults_ok_spec {α β γ : Type} (outputs : Nat → Option β)
    (decode : β → Option α) :
    ∀ (jobs : List γ) (s : Nat) (res : List (Option α)),
      collectResults outputs decode s jobs = Except.ok res →
      res.length = jobs.length
      ∧ ∀ n, n < jobs.length → res.get? n = some ((outputs (s + n)).bind decode) := by
  intro jobs
  induction jobs with
  | nil =>
    intro s res h
    have hres : res = [] := by
      have : Except.ok (ε := Unit) ([] : List (Option α)) = Except.ok res := h
      exact (Except.ok.inj this).symm
    subst hres
    exact ⟨rfl, fun n hn => by simp at hn⟩
  | cons j rest ih =>
    intro s res h
    rw [collectResults] at h
    cases ho : outputs s with
    | none =>
      simp only [ho] at h
      cases hr : collectResults outputs decode (s + 1) rest with
      | error e => simp [hr, Except.map] at h
      | ok res2 =>
        simp only [hr, Except.map] at h
        obtain rfl : none :: res2 = res := by simpa using h
        have hrec := ih (s + 1) res2 hr
        constructor
        · simp [hrec.1]
        · intro n hn
          match n with
          | 0 =>
            show some none = some ((outputs (s + 0)).bind decode)
            rw [Nat.add_zero, ho]
            rfl
          | n + 1 =>
            show res2.get? n = some ((outputs (s + (n + 1))).bind decode)
            rw [show s + (n + 1) = s + 1 + n by omega]
            exact hrec.2 n (by simpa using hn)
    | some b =>
      simp only [ho] at h
      cases hd : decode b with
      | none =>
        simp [hd] at h
      | some v =>
        simp only [hd] at h
        cases hr : collectResults outputs decode (s + 1) rest with
        | error e => simp [hr, Except.map] at h
        | ok res2 =>
          simp only [hr, Except.map] at h
          obtain rfl : some v :: res2 = res := by simpa using h
          have hrec := ih (s + 1) res2 hr
          constructor
          · simp [hrec.1]
          · intro n hn
            match n with
            | 0 =>
              show some (some v) = some ((outputs (s + 0)).bind decode)
              rw [Nat.add_zero, ho]
              simp [hd]
            | n + 1 =>
              show res2.get? n = some ((outputs (s + (n + 1))).bind decode)
              rw [show s + (n + 1) = s + 1 + n by omega]
              exact hrec.2 n (by simpa using hn)

/-- Claim C2: whenever the collection loop completes (which is the only way
`map` returns), it returns exactly one result per input job, in input order:
slot `n` holds the decoded output blob of job `n` when that blob exists and
decodes, and the sentinel `none` when the blob file is missing. -/
theorem map_collect_input_order {α β γ : Type} (outputs : Nat → Option β)
    (decode : β → Option α) (jobs : List γ) (res : List (Option α))
    (h : collectResults outputs decode 0 jobs = Except.ok res) :
    res.length = jobs.length
    ∧ ∀ n, n < jobs.length → res.get? n = some ((outputs n).bind decode) := by
  have hspec := collectResults_ok_spec outputs decode jobs 0 res h
  exact ⟨hspec.1, fun n hn => by simpa using hspec.2 n hn⟩

/-- Witness for C2 on a concrete two-job batch: job 0 has an output blob,
job 1 does not. -/
theorem map_collect_input_order_witness :
    ([some 10, none] : List (Option Nat)).length = ([7, 8] : List Nat).length :=
  (map_collect_input_order (fun i => if i = 0 then some 10 else none) some [7, 8]
    [some 10, none] rfl).1

/-- Claim C4 (amended): if a job's output blob is present and decodable at
collection time — which is what a cleared error state followed by a completed
(re)run produces, provided the polling loop did not terminate in the very
cycle of the final resubmission — then the returned sequence carries the real
decoded result at that job's index, not the sentinel. -/
theorem cleared_error_real_result {α β γ : Type} (outputs : Nat → Option β)
    (decode : β → Option α) (jobs : List γ) (res : List (Option α)) (i : Nat) (b : β)
    (v : α)
    (hcol : collectResults outputs decode 0 jobs = Except.ok res)
    (hi : i < jobs.length) (hb : outputs i = some b) (hv : decode b = some v) :
    res.get? i = some (some v) := by
  have hspec := (collectResults_ok_spec outputs decode jobs 0 res hcol).2 i hi
  rw [Nat.zero_add] at hspec
  rw [hspec, hb]
  simp [hv]

/-- Witness for C4 at a concrete one-job batch with a present, decodable
output blob. -/
theorem cleared_error_real_result_witness :
    ([some 5] : List (Option Nat)).get? 0 = some (some 5) :=
  cleared_error_real_result (fun _ => some 5) some [()] [some 5] 0 5 5 rfl (by decide)
    rfl rfl

/-- Counterexample to C4 as stated: one job, `max_num_resubmissions = 2`.
The only poll cycle reports the job in an error state (`Eqw`); its counter is
initialized to 0, which is below the bound, so it is resubmitted
(`resubmitted_idxs = [0]`) — its error state has cleared.  But the
termination test of that same cycle sees zero running and zero pending jobs,
so the loop leaves at cycle 0 without ever awaiting the resubmitted run; at
collection time the output blob of the still-running rerun is absent and the
slot receives the sentinel `none` instead of the real result. -/
theorem cleared_error_counterexample :
    pollLoop 2 [make_JB_name ['S'] 0] ['E']
        [⟨[⟨make_JB_name ['S'] 0, ['1'], ['E', 'q', 'w']⟩], []⟩] ⟨[], []⟩
      = some (0, ⟨[(0, 0)], [0]⟩)
    ∧ collectResults (fun _ => (none : Option Nat)) some 0 [()] = Except.ok [none] :=
  ⟨by decide, rfl⟩

theorem collectResults_all_decodable {α β γ : Type} (outputs : Nat → Option β)
    (decode : β → Option α)
    (h : ∀ i b, outputs i = some b → (decode b).isSome = true) :
    ∀ (jobs : List γ) (s : Nat),
      collectResults outputs decode s jobs
        = Except.ok ((List.range jobs.length).map (fun n => (outputs (s + n)).bind decode)) := by
  intro jobs
  induction jobs with
  | nil => intro s; simp [collectResults]
  | cons j rest ih =>
    intro s
    rw [collectResults]
    have htail : (List.range (j :: rest).length).map (fun n => (outputs (s + n)).bind decode)
        = ((outputs s).bind decode)
          :: (List.range rest.length).map (fun n => (outputs (s + 1 + n)).bind decode) := by
      rw [List.length_cons, List.range_succ_eq_map, List.map_cons, List.map_map]
      rw [Nat.add_zero]
      congr 1
      refine List.map_congr_left ?_
      intro a _
      show (outputs (s + (a + 1))).bind decode = (outputs (s + 1 + a)).bind decode
      rw [show s + (a + 1) = s + 1 + a by omega]
    cases ho : outputs s with
    | none =>
      simp only [ho, ih (s + 1), htail, ho, Except.map]
      rfl
    | some b =>
      obtain ⟨v, hv⟩ := Option.isSome_iff_exists.mp (h s b ho)
      simp only [ho, hv, ih (s + 1), htail, Except.map]
      simp [hv]


/-- Claim C6 (amended): if the output blob file of a job is absent at
collection time, `map` records the sentinel `none` at that index and
continues, and — provided every blob that *is* present decodes — the
collection completes with one entry per job.  (The unamended claim is false:
an undecodable present blob is *not* treated like a missing file, see the
counterexample — its `pickle.loads` exception is not caught.) -/
theorem missing_output_yields_sentinel {α β γ : Type} (outputs : Nat → Option β)
    (decode : β → Option α) (jobs : List γ)
    (h : ∀ i b, outputs i = some b → (decode b).isSome = true) :
    collectResults outputs decode 0 jobs
      = Except.ok ((List.range jobs.length).map (fun n => (outputs n).bind decode))
    ∧ ∀ n, n < jobs.length → outputs n = none →
        ((List.range jobs.length).map (fun n => (outputs n).bind decode)).get? n
          = some none := by
  constructor
  · have hall := collectResults_all_decodable outputs decode h jobs 0
    rw [hall]
    congr 1
    exact List.map_congr_left (fun a _ => by rw [Nat.zero_add])
  · intro n hn hnone
    rw [List.get?_eq_getElem?, List.getElem?_map, List.getElem?_range hn]
    simp [hnone]

/-- Witness for C6: a one-job batch whose output blob is missing collects to
the sentinel list `[none]`. -/
theorem missing_output_yields_sentinel_witness :
    collectResults (fun _ => (none : Option Nat)) (some : Nat → Option Nat) 0
        ([()] : List Unit)
      = Except.ok [none] := by
  have h := (missing_output_yields_sentinel (fun _ => (none : Option Nat))
    (some : Nat → Option Nat) ([()] : List Unit)
    (fun i b hb => Option.noConfusion hb)).1
  simpa using h

/-- Counterexample to C6 as stated: a present but undecodable output blob
does *not* yield a sentinel — the collection loop catches only
`FileNotFoundError`, so the decode failure propagates and `map` raises
instead of returning a full-length result sequence. -/
theorem decode_failure_counterexample :
    collectResults (fun _ => some 7) (fun _ => (none : Option Nat)) 0 [()]
      = Except.error ()
    ∧ collectResults (fun _ => some 7) (fun _ => (none : Option Nat)) 0 [()]
      ≠ Except.ok [none] :=
  ⟨rfl, fun h => Except.noConfusion h⟩

/-! ### Environment escaping (C3) -/

/-- Claim C3 is a code bug: `unicode_escape` leaves the double-quote
character unescaped, so a key or value containing `"` closes the generated
double-quoted literal early and the fragment no longer evaluates back to the
original string — evaluation fails outright (`SyntaxError`), violating the
required lossless round trip.  The last conjunct shows the round trip *does*
hold for a string exercising backslashes and control characters, confirming
the quote as the slip. -/
theorem env_escape_quote_breaks_literal :
    unicodeEscape ['"'] = ['"']
    ∧ parsePyLiteral (embedInLiteral ['"']) = none
    ∧ parsePyLiteral (embedInLiteral ['a', '"', 'b']) = none
    ∧ parsePyLiteral (embedInLiteral ['a', '\\', '\n', '\t'])
        = some ['a', '\\', '\n', '\t'] :=
  ⟨by decide, by decide, by decide, by decide⟩

/-! ### The resubmission bound (C1) -/

/-- Claim C1 (amended): for a job index that the queue reports in an error
state (exactly once) in every executed poll cycle, and a polling loop that
leaves at cycle `k` (so `k + 1` cycles execute), `map` resubmits the job
exactly `min (k + 1) max_num_resubmissions` times; its counter is
initialized to 0 on the first error observation and incremented on each
later one (final value `k`); once the loop has run at least
`max_num_resubmissions` cycles the job is resubmitted exactly
`max_num_resubmissions` times and never again; and since the abandoned job
never produces an output blob, its slot in the returned sequence is the
sentinel `none`.  (The unamended "exactly `max_num_resubmissions` times" is
false when the loop terminates earlier, see the counterexample.) -/
theorem perpetual_error_resubmission_bound (max_num_resubmissions : Nat)
    (JB_names_set : List (List Char)) (error_state_indicator : List Char)
    (i k : Nat) (trace : List PollObservation) (stF : LoopState)
    (hrun : pollLoop max_num_resubmissions JB_names_set error_state_indicator trace
        ⟨[], []⟩ = some (k, stF))
    (herr : ∀ obs ∈ trace.take (k + 1),
        errorBucketCountForIdx JB_names_set error_state_indicator obs i = 1) :
    numResubmissionsOf stF i = min (k + 1) max_num_resubmissions
    ∧ dictGet stF.num_resubmissions_by_idx i = some k
    ∧ (max_num_resubmissions ≤ k + 1 →
        numResubmissionsOf stF i = max_num_resubmissions)
    ∧ (∀ {α β γ : Type} (outputs : Nat → Option β) (decode : β → Option α)
        (jobs : List γ) (res : List (Option α)),
        collectResults outputs decode 0 jobs = Except.ok res →
        outputs i = none → i < jobs.length → res.get? i = some none) := by
  obtain ⟨hk, hstF⟩ := pollLoop_some_inv max_num_resubmissions JB_names_set
    error_state_indicator trace ⟨[], []⟩ k stF hrun
  have hlen : (trace.take (k + 1)).length = k + 1 := by
    rw [List.length_take]
    omega
  have hne : trace.take (k + 1) ≠ [] := by
    intro hnil
    rw [hnil] at hlen
    simp at hlen
  have hmain := runCycles_counter_init max_num_resubmissions JB_names_set
    error_state_indicator i (trace.take (k + 1)) hne herr
  rw [hlen] at hmain
  subst hstF
  refine ⟨hmain.2, ?_, ?_, ?_⟩
  · rw [hmain.1]
    simp
  · intro hle
    rw [hmain.2]
    omega
  · intro α β γ outputs decode jobs res hcol hout hi
    have hspec := (collectResults_ok_spec outputs decode jobs 0 res hcol).2 i hi
    rw [Nat.zero_add] at hspec
    rw [hspec, hout]
    rfl

/-- Witness for C1 on a concrete trace: two session jobs, bound 2; job 0 is
reported in state `Eqw` in all three executed cycles while job 1 keeps the
loop alive for the first two; job 0 is resubmitted `min 3 2 = 2` times. -/
theorem perpetual_error_resubmission_bound_witness :
    numResubmissionsOf ⟨[(0, 2)], [0, 0]⟩ 0 = min 3 2 :=
  (perpetual_error_resubmission_bound 2
    [make_JB_name ['S'] 0, make_JB_name ['S'] 1] ['E'] 0 2
    [⟨[⟨make_JB_name ['S'] 0, ['1'], ['E', 'q', 'w']⟩,
       ⟨make_JB_name ['S'] 1, ['2'], ['r']⟩], []⟩,
     ⟨[⟨make_JB_name ['S'] 0, ['1'], ['E', 'q', 'w']⟩,
       ⟨make_JB_name ['S'] 1, ['2'], ['r']⟩], []⟩,
     ⟨[⟨make_JB_name ['S'] 0, ['1'], ['E', 'q', 'w']⟩], []⟩]
    ⟨[(0, 2)], [0, 0]⟩ (by decide) (by decide)).1

/-- Counterexample to C1 as stated: one job, bound 3.  The job is reported in
an error state in every executed poll cycle (there is exactly one, because
nothing keeps the running or pending bucket non-empty), yet it is resubmitted
only once — not 3 times — before the loop leaves. -/
theorem perpetual_error_resubmission_bound_counterexample :
    pollLoop 3 [make_JB_name ['S'] 0] ['E']
        [⟨[⟨make_JB_name ['S'] 0, ['1'], ['E', 'q', 'w']⟩], []⟩] ⟨[], []⟩
      = some (0, ⟨[(0, 0)], [0]⟩)
    ∧ numResubmissionsOf ⟨[(0, 0)], [0]⟩ 0 = 1
    ∧ (1 : Nat) ≠ 3 := by decide

end SGE
